import Mathlib

/-!
Verification of the AuditMaster purchase-reconciliation core
(src/index.tsx).  The TypeScript source is shallowly embedded: rows are
association lists from column name to cell text, JavaScript string
operations are modelled as total Lean functions on `String`, machine
numbers are `Nat`/`Int`, and each React handler that is pure in the
session state is a Lean function.
-/

/-! ## JavaScript string primitives -/

/-- The whitespace class JavaScript `trim` and the regex `\s` use, restricted
to the characters that can reach this program's fields. -/
def jsIsWs (c : Char) : Bool :=
  c == ' ' || c == '\t' || c == '\n' || c == '\r' || c == '\x0b' || c == '\x0c'

/-- JavaScript `String.prototype.trim`. -/
def jsTrim (s : String) : String :=
  let l := s.toList.dropWhile jsIsWs
  String.mk ((l.reverse.dropWhile jsIsWs).reverse)

/-- JavaScript `toLowerCase` on one character: ASCII plus the accented
letters the program's vocabularies use. -/
def jsLowerChar (c : Char) : Char :=
  if c = 'Á' then 'á' else if c = 'É' then 'é' else if c = 'Í' then 'í'
  else if c = 'Ó' then 'ó' else if c = 'Ú' then 'ú' else if c = 'Ñ' then 'ñ'
  else if c = 'Ü' then 'ü' else c.toLower

/-- JavaScript `toUpperCase` on one character (same coverage). -/
def jsUpperChar (c : Char) : Char :=
  if c = 'á' then 'Á' else if c = 'é' then 'É' else if c = 'í' then 'Í'
  else if c = 'ó' then 'Ó' else if c = 'ú' then 'Ú' else if c = 'ñ' then 'Ñ'
  else if c = 'ü' then 'Ü' else c.toUpper

def jsToLower (s : String) : String := String.mk (s.toList.map jsLowerChar)

def jsToUpper (s : String) : String := String.mk (s.toList.map jsUpperChar)

/-- Does `pat` occur at the head of `l`? -/
def segStarts : List Char → List Char → Bool
  | [], _ => true
  | _ :: _, [] => false
  | p :: ps, c :: cs => p == c && segStarts ps cs

/-- Does `pat` occur anywhere in `l`?  (JavaScript `includes`.) -/
def segContains (pat : List Char) : List Char → Bool
  | [] => segStarts pat []
  | c :: t => segStarts pat (c :: t) || segContains pat t

/-- JavaScript `s.includes(sub)`. -/
def strContains (s sub : String) : Bool := segContains sub.toList s.toList

/-- JavaScript `s.endsWith(suf)` (used only to state claims about keys). -/
def strEndsWith (s suf : String) : Bool :=
  segStarts suf.toList.reverse s.toList.reverse

/-- Remove the first occurrence of `pat` from `l` (JavaScript
`replace(pat, '')` with a string pattern replaces only the first hit). -/
def removeFirstSeg (pat : List Char) : List Char → List Char
  | [] => []
  | c :: rest =>
    if segStarts pat (c :: rest) then (c :: rest).drop pat.length
    else c :: removeFirstSeg pat rest

/-- JavaScript `replace('.0', '')` on a string. -/
def removeFirstDot0 (s : String) : String :=
  String.mk (removeFirstSeg ['.', '0'] s.toList)

/-- JavaScript `replace(/\s+/g, '')`: delete every whitespace character. -/
def removeAllWs (s : String) : String :=
  String.mk (s.toList.filter (fun c => !jsIsWs c))

/-- JavaScript `s.slice(0, -1)`: everything but the last character. -/
def strDropLast (s : String) : String := String.mk s.toList.dropLast

/-- The numeric value of a list of ASCII digits. -/
def digitsVal (l : List Char) : Nat :=
  l.foldl (fun n c => n * 10 + (c.toNat - 48)) 0

/-- JavaScript `parseInt(str, 10) || 0` on a string holding no whitespace:
an optional sign, then the maximal run of leading digits; no digits (NaN)
falls back to 0. -/
def jsParseIntCore (l : List Char) : Int :=
  match l with
  | '-' :: rest =>
    let ds := rest.takeWhile Char.isDigit
    if ds.isEmpty then 0 else -(digitsVal ds : Int)
  | '+' :: rest =>
    let ds := rest.takeWhile Char.isDigit
    if ds.isEmpty then 0 else (digitsVal ds : Int)
  | _ =>
    let ds := l.takeWhile Char.isDigit
    if ds.isEmpty then 0 else (digitsVal ds : Int)

/-- JavaScript `parseInt(str, 10) || 0` (leading whitespace skipped). -/
def jsParseIntStr (s : String) : Int :=
  jsParseIntCore (s.toList.dropWhile jsIsWs)

/-- JavaScript split on the character class dash-or-slash. -/
def splitSepsAux : List Char → List Char → List String
  | [], acc => [String.mk acc.reverse]
  | c :: rest, acc =>
    if c == '-' || c == '/' then String.mk acc.reverse :: splitSepsAux rest []
    else splitSepsAux rest (c :: acc)

def splitSeps (s : String) : List String := splitSepsAux s.toList []

/-! ## Rows -/

/-- A spreadsheet row / JavaScript object: column name to cell text
(`ParsedRow = Record<string, string>` in the source).  Earlier pairs
shadow later ones, matching object-spread override when new fields are
prepended. -/
abbrev Row := List (String × String)

/-- `row[k] || ''`: the value at key `k`, with a missing key (JavaScript
`undefined`) and the empty string both read as `''`. -/
def jsGet (row : Row) (k : String) : String :=
  ((row.find? (fun p => p.1 == k)).map Prod.snd).getD ""

/-- Membership of a string in a list of strings (the JavaScript `Set.has`
over the array the set was built from). -/
def strListHas (l : List String) (a : String) : Bool :=
  l.any (fun x => x == a)

/-! ## Normalizers (src/index.tsx lines 83-102) -/

/-- `normalizeRut`: strip `.` and `-`, upper-case, trim. -/
def normalizeRut (rut : String) : String :=
  if rut = "" then ""
  else jsTrim (jsToUpper (String.mk (rut.toList.filter (fun c => !(c == '.' || c == '-')))))

/-- `normalizeInvoice`: trim, then strip the leading run of zeros
(`replace(/^0+/, '')`). -/
def normalizeInvoice (inv : String) : String :=
  if inv = "" then ""
  else String.mk ((jsTrim inv).toList.dropWhile (fun c => c == '0'))

/-- `parseAmount` on a string: keep only `[0-9,.-]`, drop the periods
(thousands separators), then `parseInt(..., 10) || 0`. -/
def parseAmount (amt : String) : Int :=
  if amt = "" then 0
  else
    let clean := amt.toList.filter (fun c => c.isDigit || c == ',' || c == '.' || c == '-')
    let chileanFormat := clean.filter (fun c => !(c == '.'))
    jsParseIntCore chileanFormat

/-! ## Row validator (src/index.tsx lines 107-220) -/

def invalidKeywords : List String :=
  ["total", "subtotal", "suma", "libro de compra", "ordenado", "desde:",
   "hasta:", "moneda:", "período", "periodo", "resumen"]

def invalidTypes : List String :=
  ["61", "56", "52", "60", "nc", "n/c", "notacredito", "notadebito",
   "credito", "debito", "débito", "crédito"]

/-- The body of `isValidDataRow` once the five field values have been read
from the row (the source reads them at lines 109-113 and never touches any
other field).  Each conjunct is the negation of one early-return, in source
order. -/
def isValidFields (factura0 rut0 monto0 nombre0 tipo0 : String) : Bool :=
  let factura := jsTrim factura0
  let rut := jsTrim rut0
  let monto := jsTrim monto0
  let nombre := jsToLower (jsTrim nombre0)
  let tipo := jsToLower (jsTrim tipo0)
  let rutClean := normalizeRut rut
  let tipoClean := removeAllWs (removeFirstDot0 tipo)
  let montoNumerico := parseAmount monto
  let rutSinDV := strDropLast rutClean
  (!(factura == "" || factura == "0" || factura == "nan" || factura == "null"))
  && (!(rutClean == "" || rutClean.length < 7))
  && (!(monto == "" || monto == "0" || monto == "nan" || monto == "null"))
  && (!(nombre == "" || nombre == "nan" || nombre == "null"))
  && (!(invalidKeywords.any (fun kw => strContains nombre kw)))
  && (!(nombre.length < 3))
  && (!(invalidTypes.any (fun t => tipoClean == t || strContains tipoClean t)))
  && (!(strContains nombre "nota" && (strContains nombre "credito" || strContains nombre "crédito")))
  && (!(montoNumerico < 0))
  && (!(rutSinDV.length < 7 || rutSinDV.length > 9))
  && (rutSinDV.toList.all Char.isDigit)
  && (match rutClean.toList.getLast? with
      | some dv => dv.isDigit || dv == 'K'
      | none => false)

/-- `isValidDataRow(row, mapping)`. -/
def isValidDataRow (row mapping : Row) : Bool :=
  isValidFields
    (jsGet row (jsGet mapping "factura"))
    (jsGet row (jsGet mapping "rut"))
    (jsGet row (jsGet mapping "monto"))
    (jsGet row (jsGet mapping "nombre"))
    (jsGet row (jsGet mapping "tipo"))

/-! ## Row mapper and reconciliation engine (src/index.tsx lines 961-1020) -/

/-- The matching key of line 976:
`normalizeRut(row[mapping['rut']]) + '_' + normalizeInvoice(row[mapping['factura']])`. -/
def mkKey (rutRaw facturaRaw : String) : String :=
  normalizeRut rutRaw ++ "_" ++ normalizeInvoice facturaRaw

/-- The fixed mapping the post-mapping validation pass uses (lines 979-986). -/
def valMapping : Row :=
  [("factura", "factura_val"), ("rut", "rut_val"), ("monto", "monto_val"),
   ("nombre", "nombre_val"), ("fecha", "fecha_val"), ("tipo", "tipo_val")]

/-- One step of `processRows` (lines 968-978): spread the original row and
add the derived `_val` fields, the matching key and the original index.
The new fields are prepended so that they shadow same-named originals,
matching object-spread override. -/
def processRow (mapping : Row) (idx : Nat) (row : Row) : Row :=
  [("factura_val", jsGet row (jsGet mapping "factura")),
   ("rut_val", jsGet row (jsGet mapping "rut")),
   ("monto_val", toString (parseAmount
      (let m := jsGet row (jsGet mapping "monto"); if m = "" then "0" else m))),
   ("nombre_val", jsGet row (jsGet mapping "nombre")),
   ("fecha_val", jsGet row (jsGet mapping "fecha")),
   ("tipo_val", jsGet row (jsGet mapping "tipo")),
   ("_key", mkKey (jsGet row (jsGet mapping "rut")) (jsGet row (jsGet mapping "factura"))),
   ("_originalIndex", toString idx)]
  ++ row

/-- `processRows`: map then filter with the robust validator. -/
def processRows (mapping : Row) (rows : List Row) : List Row :=
  (rows.enum.map (fun p => processRow mapping p.1 p.2)).filter
    (fun r => isValidDataRow r valMapping)

structure AnalysisResult where
  softlandTotal : Nat
  controlTotal : Nat
  missingCount : Nat
  missingAmount : Int
  missingRecords : List Row
  matchedCount : Nat
  controlRecords : List Row
  softlandRecords : List Row
  deriving Repr, DecidableEq

/-- Lines 997-1019 of `runAnalysis`, over already-processed record lists:
build the control key set, filter softland rows whose key is absent, sum
`parseInt(monto_val)` over the missing rows. -/
def reconcile (S C : List Row) : AnalysisResult :=
  let controlKeys := C.map (fun r => jsGet r "_key")
  let missing := S.filter (fun s => !(strListHas controlKeys (jsGet s "_key")))
  { softlandTotal := S.length
    controlTotal := C.length
    matchedCount := S.length - missing.length
    missingCount := missing.length
    missingAmount := (missing.map (fun r => jsParseIntStr (jsGet r "monto_val"))).sum
    missingRecords := missing
    controlRecords := C
    softlandRecords := S }

/-- The whole `runAnalysis` pipeline from raw rows and user mappings. -/
def runAnalysis (sRaw cRaw : List Row) (sMap cMap : Row) : AnalysisResult :=
  reconcile (processRows sMap sRaw) (processRows cMap cRaw)

/-! ## Audit state (src/index.tsx lines 36, 779-804) -/

inductive AuditStatus where
  | pending | verified | failed
  deriving Repr, DecidableEq, BEq

/-- `Record<string, AuditStatus>`: a JavaScript object, one entry per key. -/
abbrev AuditState := List (String × AuditStatus)

/-- `state[k]`: `some` the stored status, `none` for an absent key. -/
def stateGet (st : AuditState) (k : String) : Option AuditStatus :=
  (st.find? (fun p => p.1 == k)).map Prod.snd

/-- `newState[id] = status`: overwrite in place, or append a new entry. -/
def setKey : AuditState → String → AuditStatus → AuditState
  | [], k, v => [(k, v)]
  | (k', v') :: rest, k, v =>
    if k' = k then (k, v) :: rest else (k', v') :: setKey rest k v

/-- `handleAuditAction(ids, status)` (lines 784-788): write `status` for
every id of the list into a copy of the state. -/
def handleAuditAction (st : AuditState) (ids : List String) (status : AuditStatus) : AuditState :=
  ids.foldl (fun s id => setKey s id status) st

/-- The body of the `ids.forEach` loop of `handleBulkAutoCheck`
(lines 794-801): find the missing record with key `id` (skip when absent);
mark `failed` when any control record shares its normalized invoice
number, else `verified`. -/
def autoCheckStep (missing control : List Row) (acc : AuditState) (id : String) : AuditState :=
  match missing.find? (fun r => jsGet r "_key" == id) with
  | none => acc
  | some record =>
    let targetInv := normalizeInvoice (jsGet record "factura_val")
    let found := control.any (fun c => normalizeInvoice (jsGet c "factura_val") == targetInv)
    setKey acc id (if found then .failed else .verified)

/-- `handleBulkAutoCheck(ids)` (lines 790-804): run `autoCheckStep` over
the selected ids on a copy of the audit state. -/
def handleBulkAutoCheck (st : AuditState) (ids : List String)
    (missing control : List Row) : AuditState :=
  ids.foldl (autoCheckStep missing control) st

/-! ## Derived audit metrics (src/index.tsx lines 779-782) -/

/-- `Object.values(auditState).filter(s => s === 'verified').length`. -/
def verifiedCount (st : AuditState) : Nat :=
  ((st.map Prod.snd).filter (fun s => s == AuditStatus.verified)).length

/-- `Object.values(auditState).filter(s => s === 'failed').length`. -/
def failedCount (st : AuditState) : Nat :=
  ((st.map Prod.snd).filter (fun s => s == AuditStatus.failed)).length

/-- `result.missingCount - failed` (line 781). -/
def realMissingCount (res : AnalysisResult) (st : AuditState) : Int :=
  (res.missingCount : Int) - (failedCount st : Int)

/-- Line 782: sum `parseAmount(monto_val)` over the missing records whose
stored status is not `failed` (an absent entry compares unequal). -/
def realMissingAmount (res : AnalysisResult) (st : AuditState) : Int :=
  ((res.missingRecords.filter
      (fun r => !(stateGet st (jsGet r "_key") == some AuditStatus.failed))).map
    (fun r => parseAmount (jsGet r "monto_val"))).sum

/-! ## Monthly aggregator (src/index.tsx lines 555-568) -/

/-- The month bucket of one `fecha_val` string. -/
def monthKeyStr (dateStr : String) : String :=
  let parts := splitSeps dateStr
  if parts.length == 3 then
    if (parts.getD 0 "").length == 4 then parts.getD 0 "" ++ "-" ++ parts.getD 1 ""
    else parts.getD 2 "" ++ "-" ++ parts.getD 1 ""
  else "Desconocido"

/-- Add one record's amount into its bucket: bump an existing entry in
place, or append a fresh `(k, 1, amt)` entry at the end (object insertion
order). -/
def addToGroup : List (String × Nat × Int) → String → Int → List (String × Nat × Int)
  | [], k, amt => [(k, 1, amt)]
  | (k', c, t) :: rest, k, amt =>
    if k' = k then (k', c + 1, t + amt) :: rest
    else (k', c, t) :: addToGroup rest k amt

/-- The grouping fold of `MonthlyStats` before sorting. -/
def groupByMonth (records : List Row) : List (String × Nat × Int) :=
  records.foldl
    (fun g r => addToGroup g (monthKeyStr (jsGet r "fecha_val")) (parseAmount (jsGet r "monto_val")))
    []

/-- `Object.entries(grouped).sort((a,b) => a[0].localeCompare(b[0]))`,
with `localeCompare` modelled as the standard string order (keys are
unique, so any comparison sort yields the same list). -/
def aggregateByMonth (records : List Row) : List (String × Nat × Int) :=
  (groupByMonth records).insertionSort (fun a b => a.1 ≤ b.1)

/-! ## Claim-side auxiliary definitions -/

/-- The document-type cleanup exactly as the source computes it
(line 167): remove the FIRST occurrence of `.0`, then all whitespace, on
the lower-cased trimmed field. -/
def codeTipoClean (tipo0 : String) : String :=
  removeAllWs (removeFirstDot0 (jsToLower (jsTrim tipo0)))

/-- The document-type cleanup as claim C5 words it: remove a TRAILING
`.0`, then all whitespace. -/
def specTipoClean (tipo0 : String) : String :=
  let t := jsToLower (jsTrim tipo0)
  removeAllWs (if strEndsWith t ".0" then String.mk (t.toList.dropLast.dropLast) else t)

/-- Does the cleaned document type equal or contain a member of the
exclusion vocabulary (the rejection test of line 183)? -/
def tipoVocabHit (tc : String) : Bool :=
  invalidTypes.any (fun t => tc == t || strContains tc t)


/-! ## Helper lemmas -/

theorem strListHas_iff (l : List String) (a : String) : strListHas l a = true ↔ a ∈ l := by
  simp [strListHas, List.any_eq_true]

theorem stateGet_nil (k : String) : stateGet [] k = none := rfl

theorem stateGet_cons (a : String) (b : AuditStatus) (rest : AuditState) (k : String) :
    stateGet ((a, b) :: rest) k = if a = k then some b else stateGet rest k := by
  by_cases h : a = k
  · rw [if_pos h]
    unfold stateGet
    rw [List.find?_cons_of_pos _ (by simpa using h)]
    rfl
  · rw [if_neg h]
    unfold stateGet
    rw [List.find?_cons_of_neg _ (by simpa using h)]

theorem stateGet_setKey (st : AuditState) (j k : String) (v : AuditStatus) :
    stateGet (setKey st j v) k = if j = k then some v else stateGet st k := by
  induction st with
  | nil =>
    show stateGet [(j, v)] k = _
    rw [stateGet_cons]
  | cons p rest ih =>
    obtain ⟨a, b⟩ := p
    simp only [setKey]
    by_cases h1 : a = j
    · subst h1
      rw [if_pos rfl, stateGet_cons, stateGet_cons]
      by_cases h2 : a = k <;> simp [h2]
    · rw [if_neg h1, stateGet_cons, stateGet_cons, ih]
      by_cases h2 : a = k
      · have hjk : j ≠ k := fun h => h1 (h2.trans h.symm)
        simp [h2, hjk]
      · simp [h2]

/-! ## Example rows used by witnesses and concrete conjuncts -/

/-- A well-formed purchase row (passes every validation rule). -/
def exRowA : Row :=
  [("factura", "1045"), ("rut", "12345678-5"), ("monto", "1000"),
   ("nombre", "acme spa"), ("fecha", "01/01/2024"), ("tipo", "33")]

/-- Same mapped fields as `exRowA`, different date and an extra column. -/
def exRowB : Row :=
  [("factura", "1045"), ("rut", "12345678-5"), ("monto", "1000"),
   ("nombre", "acme spa"), ("fecha", "31/12/2025"), ("tipo", "33"), ("extra", "zzz")]

/-- The identity column mapping (each canonical field named by itself). -/
def idMapping : Row :=
  [("factura", "factura"), ("rut", "rut"), ("monto", "monto"),
   ("nombre", "nombre"), ("fecha", "fecha"), ("tipo", "tipo")]

/-! ## Claims -/

/-- C1: for every pair of validated record lists S (softland) and C
(control), the reconciliation's missingRecords is exactly the filter of S
keeping each row (duplicates included, each row testing membership
independently) whose `_key` differs from every control row's `_key`. -/
theorem claim_C1_missing_is_key_difference (S C : List Row) :
    (reconcile S C).missingRecords
      = S.filter (fun s => decide (∀ c ∈ C, jsGet c "_key" ≠ jsGet s "_key")) := by
  show (S.filter fun s =>
      !(strListHas (C.map fun r => jsGet r "_key") (jsGet s "_key"))) = _
  apply List.filter_congr
  intro s _
  by_cases h : ∀ c ∈ C, jsGet c "_key" ≠ jsGet s "_key"
  · rw [decide_eq_true h]
    have hfalse : strListHas (C.map fun r => jsGet r "_key") (jsGet s "_key") = false := by
      rw [Bool.eq_false_iff]
      intro hx
      rcases List.mem_map.mp ((strListHas_iff _ _).mp hx) with ⟨c, hc, he⟩
      exact h c hc he
    rw [hfalse]
    rfl
  · rw [decide_eq_false h]
    push_neg at h
    rcases h with ⟨c, hc, he⟩
    have htrue : strListHas (C.map fun r => jsGet r "_key") (jsGet s "_key") = true :=
      (strListHas_iff _ _).mpr (List.mem_map.mpr ⟨c, hc, he⟩)
    rw [htrue]
    rfl

/-- C2: for every AnalysisResult produced by a reconciliation run,
missingCount is the length of missingRecords, every missing record's key
is absent from the control records' keys, and matchedCount + missingCount
equals softlandTotal, the number of post-filter validated softland
records. -/
theorem claim_C2_result_invariants (sRaw cRaw : List Row) (sMap cMap : Row) :
    (runAnalysis sRaw cRaw sMap cMap).missingCount
        = (runAnalysis sRaw cRaw sMap cMap).missingRecords.length
    ∧ (∀ r ∈ (runAnalysis sRaw cRaw sMap cMap).missingRecords,
        ∀ c ∈ (runAnalysis sRaw cRaw sMap cMap).controlRecords,
          jsGet c "_key" ≠ jsGet r "_key")
    ∧ (runAnalysis sRaw cRaw sMap cMap).matchedCount
        + (runAnalysis sRaw cRaw sMap cMap).missingCount
        = (runAnalysis sRaw cRaw sMap cMap).softlandTotal
    ∧ (runAnalysis sRaw cRaw sMap cMap).softlandTotal = (processRows sMap sRaw).length := by
  refine ⟨rfl, ?_, ?_, rfl⟩
  · intro r hr c hc heq
    have hr' : r ∈ (processRows sMap sRaw).filter (fun s =>
        !(strListHas ((processRows cMap cRaw).map fun rr => jsGet rr "_key")
          (jsGet s "_key"))) := hr
    have h2 := (List.mem_filter.mp hr').2
    rw [Bool.not_eq_true'] at h2
    have h5 := (strListHas_iff ((processRows cMap cRaw).map fun rr => jsGet rr "_key")
      (jsGet r "_key")).mpr (List.mem_map.mpr ⟨c, hc, heq⟩)
    rw [h2] at h5
    exact Bool.false_ne_true h5
  · show (processRows sMap sRaw).length
        - ((processRows sMap sRaw).filter fun s =>
            !(strListHas ((processRows cMap cRaw).map fun r => jsGet r "_key")
              (jsGet s "_key"))).length
        + ((processRows sMap sRaw).filter fun s =>
            !(strListHas ((processRows cMap cRaw).map fun r => jsGet r "_key")
              (jsGet s "_key"))).length
      = (processRows sMap sRaw).length
    exact Nat.sub_add_cancel (List.length_filter_le _ _)

/-- C3: the row validator is a total boolean function on any row and
mapping (in this embedding every definition is total and pure), and any
empty/malformed record — one whose mapped invoice field trims to the
empty string, as in an all-empty row — is rejected. -/
theorem claim_C3_validator_total (row mapping : Row) :
    (isValidDataRow row mapping = true ∨ isValidDataRow row mapping = false)
    ∧ (jsTrim (jsGet row (jsGet mapping "factura")) = "" →
        isValidDataRow row mapping = false) := by
  constructor
  · cases h : isValidDataRow row mapping
    · exact Or.inr rfl
    · exact Or.inl rfl
  · intro h
    simp [isValidDataRow, isValidFields, h]

/-- C7: the bulk status update maps every key in the list to the given
status and leaves every other key's entry exactly as it was; the
single-key update is the one-element-list special case; no key is
validated against any discrepancy set. -/
theorem claim_C7_bulk_update_frame (st : AuditState) (ids : List String)
    (status : AuditStatus) (k : String) :
    stateGet (handleAuditAction st ids status) k
      = (if k ∈ ids then some status else stateGet st k)
    ∧ handleAuditAction st [k] status = setKey st k status := by
  constructor
  · induction ids generalizing st with
    | nil => simp [handleAuditAction]
    | cons id rest ih =>
      show stateGet (handleAuditAction (setKey st id status) rest status) k = _
      rw [ih]
      by_cases h1 : k ∈ rest
      · simp [h1, List.mem_cons]
      · rw [if_neg h1, stateGet_setKey]
        by_cases h2 : id = k
        · subst h2
          simp
        · have hne : k ∉ id :: rest := by
            intro hmem
            rcases List.mem_cons.mp hmem with h | h
            · exact h2 h.symm
            · exact h1 h
          rw [if_neg h2, if_neg hne]
  · rfl

/-- C9: validity is independent of the date field: two rows that agree on
the mapped factura, rut, monto, nombre and tipo values (but may differ in
fecha and in unmapped columns) validate identically. -/
theorem claim_C9_validity_ignores_date (r1 r2 m : Row)
    (hf : jsGet r1 (jsGet m "factura") = jsGet r2 (jsGet m "factura"))
    (hr : jsGet r1 (jsGet m "rut") = jsGet r2 (jsGet m "rut"))
    (hm : jsGet r1 (jsGet m "monto") = jsGet r2 (jsGet m "monto"))
    (hn : jsGet r1 (jsGet m "nombre") = jsGet r2 (jsGet m "nombre"))
    (ht : jsGet r1 (jsGet m "tipo") = jsGet r2 (jsGet m "tipo")) :
    isValidDataRow r1 m = isValidDataRow r2 m := by
  unfold isValidDataRow
  rw [hf, hr, hm, hn, ht]

/-- Witness for C9: two concrete rows differing only in the date and an
unmapped extra column validate identically. -/
theorem claim_C9_witness : isValidDataRow exRowA idMapping = isValidDataRow exRowB idMapping :=
  claim_C9_validity_ignores_date exRowA exRowB idMapping
    (by decide) (by decide) (by decide) (by decide) (by decide)

theorem countSnd_eq (st : AuditState) (v : AuditStatus) :
    ((st.map Prod.snd).filter (fun s => s == v)).length
      = (st.filter (fun p => p.2 == v)).length := by
  rw [List.filter_map, List.length_map]
  rfl

/-- C6: the derived audit metrics: verifiedCount and failedCount count the
entries of the audit state carrying those statuses, realMissingCount is
missingCount minus failedCount, and realMissingAmount sums the parsed
amounts of exactly the missing records whose effective status (unset
entries reading as pending) is not failed. -/
theorem claim_C6_derived_metrics (res : AnalysisResult) (st : AuditState) :
    verifiedCount st = (st.filter (fun p => p.2 == AuditStatus.verified)).length
    ∧ failedCount st = (st.filter (fun p => p.2 == AuditStatus.failed)).length
    ∧ realMissingCount res st
        = (res.missingCount : Int)
          - ((st.filter (fun p => p.2 == AuditStatus.failed)).length : Int)
    ∧ realMissingAmount res st
        = ((res.missingRecords.filter (fun r =>
              decide ((stateGet st (jsGet r "_key")).getD AuditStatus.pending
                ≠ AuditStatus.failed))).map
            (fun r => parseAmount (jsGet r "monto_val"))).sum := by
  have hpt : ∀ (o : Option AuditStatus),
      (!(o == some AuditStatus.failed))
        = decide (o.getD AuditStatus.pending ≠ AuditStatus.failed) := by
    intro o
    cases o with
    | none => rfl
    | some v => cases v <;> rfl
  refine ⟨countSnd_eq st .verified, countSnd_eq st .failed, ?_, ?_⟩
  · unfold realMissingCount failedCount
    rw [countSnd_eq st .failed]
  · unfold realMissingAmount
    rw [List.filter_congr (fun r _ => hpt (stateGet st (jsGet r "_key")))]

theorem stateGet_autoCheckStep (st : AuditState) (id k : String) (missing control : List Row) :
    stateGet (autoCheckStep missing control st id) k
      = (if id = k then
          match missing.find? (fun r => jsGet r "_key" == k) with
          | none => stateGet st k
          | some r =>
            some (if control.any (fun c =>
                normalizeInvoice (jsGet c "factura_val")
                  == normalizeInvoice (jsGet r "factura_val"))
              then AuditStatus.failed else AuditStatus.verified)
        else stateGet st k) := by
  unfold autoCheckStep
  by_cases h : id = k
  · subst h
    cases hf : missing.find? (fun r => jsGet r "_key" == id) with
    | none => simp [hf]
    | some record => simp [hf, stateGet_setKey]
  · cases hf : missing.find? (fun r => jsGet r "_key" == id) with
    | none => simp [h]
    | some record => simp [stateGet_setKey, h]

/-- C4: the auto-reconcile pass maps each selected key that locates a
missing record to failed when some control record shares its normalized
invoice number (whatever its tax id or amount), to verified otherwise,
and leaves every other key's entry unchanged (keys locating no missing
record are silently skipped).  In particular a missing record with
invoice 100 against a control set holding invoice 0100 under a different
tax id is marked failed. -/
theorem claim_C4_auto_reconcile (st : AuditState) (ids : List String)
    (missing control : List Row) (k : String) :
    (stateGet (handleBulkAutoCheck st ids missing control) k
      = if k ∈ ids then
          match missing.find? (fun r => jsGet r "_key" == k) with
          | none => stateGet st k
          | some r =>
            some (if control.any (fun c =>
                normalizeInvoice (jsGet c "factura_val")
                  == normalizeInvoice (jsGet r "factura_val"))
              then AuditStatus.failed else AuditStatus.verified)
        else stateGet st k)
    ∧ stateGet (handleBulkAutoCheck [] ["111111111_100"]
        [[("_key", "111111111_100"), ("factura_val", "100")]]
        [[("_key", "222222222_100"), ("factura_val", "0100")]]) "111111111_100"
      = some AuditStatus.failed := by
  constructor
  · induction ids generalizing st with
    | nil => simp [handleBulkAutoCheck]
    | cons id rest ih =>
      show stateGet (handleBulkAutoCheck (autoCheckStep missing control st id)
        rest missing control) k = _
      rw [ih]
      by_cases h1 : k ∈ rest
      · rw [if_pos h1, if_pos (List.mem_cons_of_mem id h1)]
        cases hf : missing.find? (fun r => jsGet r "_key" == k) with
        | some r => simp [hf]
        | none =>
          simp only [hf]
          rw [stateGet_autoCheckStep]
          by_cases h2 : id = k
          · subst h2
            simp [hf]
          · rw [if_neg h2]
      · rw [if_neg h1, stateGet_autoCheckStep]
        by_cases h2 : id = k
        · rw [if_pos h2, if_pos (h2 ▸ List.mem_cons_self id rest)]
        · have hne : k ∉ id :: rest := by
            intro hmem
            rcases List.mem_cons.mp hmem with h | h
            · exact h2 h.symm
            · exact h1 h
          rw [if_neg h2, if_neg hne]
  · decide

theorem normInvoice_zeros (s : String) (h1 : jsTrim s ≠ "")
    (h2 : (jsTrim s).toList.all (fun c => c == '0') = true) :
    normalizeInvoice s = "" := by
  have hs : s ≠ "" := by
    intro he
    rw [he] at h1
    exact h1 rfl
  unfold normalizeInvoice
  rw [if_neg hs]
  have hd : (jsTrim s).toList.dropWhile (fun c => c == '0') = [] := by
    rw [List.dropWhile_eq_nil_iff]
    intro x hx
    exact List.all_eq_true.mp h2 x hx
  rw [hd]

theorem strEndsWith_underscore (y : String) : strEndsWith (y ++ "_") "_" = true := by
  unfold strEndsWith
  rw [show (y ++ "_").toList = y.toList ++ ['_'] from String.data_append y "_"]
  rw [List.reverse_append]
  simp [segStarts]

/-- C10: any nonempty all-zero invoice string normalizes to the empty
string, so two rows with the same tax-id field and distinct all-zero
invoice fields derive the same matching key, which ends in an underscore;
yet the validator's literal check only rejects the exact string 0 (an
otherwise-valid row with invoice 00 passes). -/
theorem claim_C10_zero_invoice_collision (rutRaw s1 s2 : String)
    (h1 : jsTrim s1 ≠ "") (h2 : (jsTrim s1).toList.all (fun c => c == '0') = true)
    (h3 : jsTrim s2 ≠ "") (h4 : (jsTrim s2).toList.all (fun c => c == '0') = true) :
    normalizeInvoice s1 = ""
    ∧ mkKey rutRaw s1 = mkKey rutRaw s2
    ∧ strEndsWith (mkKey rutRaw s1) "_" = true
    ∧ isValidFields "0" "12345678-5" "1000" "acme spa" "33" = false
    ∧ isValidFields "00" "12345678-5" "1000" "acme spa" "33" = true := by
  have e1 := normInvoice_zeros s1 h1 h2
  have e2 := normInvoice_zeros s2 h3 h4
  refine ⟨e1, ?_, ?_, by decide, by decide⟩
  · unfold mkKey
    rw [e1, e2]
  · unfold mkKey
    rw [e1, String.append_empty]
    exact strEndsWith_underscore _

/-- Witness for C10 at the invoice strings 00 and 000. -/
theorem claim_C10_witness :
    normalizeInvoice "00" = ""
    ∧ mkKey "12.345.678-5" "00" = mkKey "12.345.678-5" "000"
    ∧ strEndsWith (mkKey "12.345.678-5" "00") "_" = true
    ∧ isValidFields "0" "12345678-5" "1000" "acme spa" "33" = false
    ∧ isValidFields "00" "12345678-5" "1000" "acme spa" "33" = true :=
  claim_C10_zero_invoice_collision "12.345.678-5" "00" "000"
    (by decide) (by decide) (by decide) (by decide)

/-- A row that is valid in every respect except possibly its document
type, carrying tipo 6.01 (no trailing .0, no vocabulary word). -/
def exC5Row : Row :=
  [("factura", "123"), ("rut", "12345678-5"), ("monto", "1000"),
   ("nombre", "acme spa"), ("fecha", "01/01/2024"), ("tipo", "6.01")]

/-- The same row with the innocuous document type 33. -/
def exC5RowOk : Row :=
  [("factura", "123"), ("rut", "12345678-5"), ("monto", "1000"),
   ("nombre", "acme spa"), ("fecha", "01/01/2024"), ("tipo", "33")]

/-- Counterexample to C5 as stated: the document type 6.01 does not end
in .0 and, read with trailing-occurrence removal as the claim words it,
matches no element of the exclusion vocabulary, and the row passes every
other rule (shown by the same row with tipo 33 being accepted) — yet the
validator rejects it, because the source removes the FIRST occurrence of
.0 anywhere, turning 6.01 into 61. -/
theorem claim_C5_counterexample :
    strEndsWith (jsToLower (jsTrim "6.01")) ".0" = false
    ∧ tipoVocabHit (specTipoClean "6.01") = false
    ∧ isValidDataRow exC5RowOk idMapping = true
    ∧ isValidDataRow exC5Row idMapping = false := by
  refine ⟨by decide, by decide, by decide, by decide⟩

/-- C5 as amended: the validator rejects any row whose document-type
field, lower-cased and trimmed, with the FIRST occurrence of .0 removed
and then all whitespace removed, equals or contains an element of the
exclusion vocabulary; a row with tipo 61 is rejected; and on an
otherwise-valid row the validator accepts exactly when that cleaned
document type matches no vocabulary element. -/
theorem claim_C5_amended_tipo_rule (f r m n t0 t1 : String)
    (hv : tipoVocabHit (codeTipoClean t0) = true) :
    isValidFields f r m n t0 = false
    ∧ isValidFields "123" "12345678-5" "1000" "acme spa" t1
        = !(tipoVocabHit (codeTipoClean t1))
    ∧ isValidFields "123" "12345678-5" "1000" "acme spa" "61" = false := by
  refine ⟨?_, ?_, by decide⟩
  · simp only [tipoVocabHit, codeTipoClean] at hv
    simp [isValidFields, hv]
  · cases h : tipoVocabHit (codeTipoClean t1) with
    | false =>
      simp only [tipoVocabHit, codeTipoClean] at h
      simp only [isValidFields, tipoVocabHit, codeTipoClean, h]
      decide
    | true =>
      simp only [tipoVocabHit, codeTipoClean] at h
      simp only [isValidFields, tipoVocabHit, codeTipoClean, h]
      decide

/-- Witness for the amended C5 at tipo 61 (rejected) and tipo 33. -/
theorem claim_C5_witness :
    isValidFields "a" "b" "c" "d" "61" = false
    ∧ isValidFields "123" "12345678-5" "1000" "acme spa" "33"
        = !(tipoVocabHit (codeTipoClean "33"))
    ∧ isValidFields "123" "12345678-5" "1000" "acme spa" "61" = false :=
  claim_C5_amended_tipo_rule "a" "b" "c" "d" "61" "33" (by decide)

/-! ## Monthly-aggregation lemmas (for C8) -/

/-- The lookup into an association-grouped bucket list. -/
def groupGet (g : List (String × Nat × Int)) (k : String) : Option (Nat × Int) :=
  (g.find? (fun p => p.1 == k)).map Prod.snd

theorem groupGet_cons (a : String) (b : Nat × Int) (rest : List (String × Nat × Int))
    (k : String) :
    groupGet ((a, b) :: rest) k = if a = k then some b else groupGet rest k := by
  by_cases h : a = k
  · rw [if_pos h]
    unfold groupGet
    rw [List.find?_cons_of_pos _ (by simpa using h)]
    rfl
  · rw [if_neg h]
    unfold groupGet
    rw [List.find?_cons_of_neg _ (by simpa using h)]

theorem groupGet_addToGroup (g : List (String × Nat × Int)) (a k : String) (amt : Int) :
    groupGet (addToGroup g a amt) k
      = if a = k then
          (match groupGet g k with
           | some (c, t) => some (c + 1, t + amt)
           | none => some (1, amt))
        else groupGet g k := by
  induction g with
  | nil =>
    show groupGet [(a, 1, amt)] k = _
    rw [groupGet_cons]
    by_cases h : a = k <;> simp [h, groupGet]
  | cons p rest ih =>
    obtain ⟨a', c', t'⟩ := p
    simp only [addToGroup]
    by_cases h1 : a' = a
    · subst h1
      rw [if_pos rfl, groupGet_cons, groupGet_cons]
      by_cases h2 : a' = k <;> simp [h2]
    · rw [if_neg h1, groupGet_cons, groupGet_cons, ih]
      by_cases h2 : a' = k
      · have hak : a ≠ k := fun h => h1 (h2.trans h.symm)
        simp [h2, hak]
      · simp [h2]

/-- The keys of a bucket list. -/
def gkeys (g : List (String × Nat × Int)) : List String := g.map (fun p => p.1)

theorem mem_gkeys_addToGroup (g : List (String × Nat × Int)) (a x : String) (amt : Int)
    (hx : x ∈ gkeys (addToGroup g a amt)) : x ∈ gkeys g ∨ x = a := by
  induction g with
  | nil =>
    right
    simpa [addToGroup, gkeys] using hx
  | cons p rest ih =>
    obtain ⟨a', c', t'⟩ := p
    by_cases h1 : a' = a
    · left
      simpa [addToGroup, h1, gkeys] using hx
    · rw [show addToGroup ((a', c', t') :: rest) a amt
          = (a', c', t') :: addToGroup rest a amt by simp [addToGroup, h1]] at hx
      rcases List.mem_cons.mp hx with h | h
      · exact Or.inl (by simp [gkeys, h])
      · rcases ih h with hm | hm
        · exact Or.inl (by simp [gkeys] at hm ⊢; exact Or.inr hm)
        · exact Or.inr hm

theorem nodup_gkeys_addToGroup (g : List (String × Nat × Int)) (a : String) (amt : Int)
    (h : (gkeys g).Nodup) : (gkeys (addToGroup g a amt)).Nodup := by
  induction g with
  | nil => simp [addToGroup, gkeys]
  | cons p rest ih =>
    obtain ⟨a', c', t'⟩ := p
    by_cases h1 : a' = a
    · rw [show addToGroup ((a', c', t') :: rest) a amt
          = (a', c' + 1, t' + amt) :: rest by simp [addToGroup, h1]]
      exact h
    · rw [show addToGroup ((a', c', t') :: rest) a amt
          = (a', c', t') :: addToGroup rest a amt by simp [addToGroup, h1]]
      have hc := List.nodup_cons.mp h
      refine List.nodup_cons.mpr ⟨?_, ih hc.2⟩
      intro hmem
      rcases mem_gkeys_addToGroup _ _ _ _ hmem with hm | hm
      · exact hc.1 hm
      · exact h1 hm

theorem nodup_gkeys_groupFold (l : List Row) :
    ∀ g : List (String × Nat × Int), (gkeys g).Nodup →
      (gkeys (l.foldl (fun g r => addToGroup g (monthKeyStr (jsGet r "fecha_val"))
        (parseAmount (jsGet r "monto_val"))) g)).Nodup := by
  induction l with
  | nil => intro g h; exact h
  | cons r rest ih =>
    intro g h
    exact ih _ (nodup_gkeys_addToGroup _ _ _ h)

theorem find?_of_mem_nodup (g : List (String × Nat × Int)) (e : String × Nat × Int)
    (hnd : (gkeys g).Nodup) (he : e ∈ g) :
    g.find? (fun p => p.1 == e.1) = some e := by
  induction g with
  | nil => cases he
  | cons p rest ih =>
    rcases List.mem_cons.mp he with h | h
    · subst h
      rw [List.find?_cons_of_pos _ (by simp)]
    · have hnd' := List.nodup_cons.mp hnd
      have hne : p.1 ≠ e.1 := by
        intro hE
        have hmem : p.1 ∈ gkeys rest := by
          rw [hE]
          exact List.mem_map.mpr ⟨e, h, rfl⟩
        exact hnd'.1 hmem
      rw [List.find?_cons_of_neg _ (by simpa using hne)]
      exact ih hnd'.2 h

/-- The number of records of `l` falling in bucket `k`. -/
def cntKey (l : List Row) (k : String) : Nat :=
  (l.filter (fun r => monthKeyStr (jsGet r "fecha_val") == k)).length

/-- The summed parsed amount of the records of `l` falling in bucket `k`. -/
def sumKey (l : List Row) (k : String) : Int :=
  ((l.filter (fun r => monthKeyStr (jsGet r "fecha_val") == k)).map
    (fun r => parseAmount (jsGet r "monto_val"))).sum

theorem groupFold_get (l : List Row) :
    ∀ (g : List (String × Nat × Int)) (k : String),
      groupGet (l.foldl (fun g r => addToGroup g (monthKeyStr (jsGet r "fecha_val"))
          (parseAmount (jsGet r "monto_val"))) g) k
        = match groupGet g k with
          | some (c, t) => some (c + cntKey l k, t + sumKey l k)
          | none => if cntKey l k = 0 then none else some (cntKey l k, sumKey l k) := by
  induction l with
  | nil =>
    intro g k
    cases hg : groupGet g k with
    | none => simp [cntKey, sumKey, hg]
    | some ct =>
      obtain ⟨c, t⟩ := ct
      simp [cntKey, sumKey, hg]
  | cons r rest ih =>
    intro g k
    rw [List.foldl_cons, ih, groupGet_addToGroup]
    by_cases hM : monthKeyStr (jsGet r "fecha_val") = k
    · rw [if_pos hM]
      have hcnt : cntKey (r :: rest) k = cntKey rest k + 1 := by
        unfold cntKey
        rw [List.filter_cons, if_pos (by simpa using hM)]
        simp [Nat.add_comm]
      have hsum : sumKey (r :: rest) k
          = parseAmount (jsGet r "monto_val") + sumKey rest k := by
        unfold sumKey
        rw [List.filter_cons, if_pos (by simpa using hM)]
        simp
      cases hg : groupGet g k with
      | some ct =>
        obtain ⟨c, t⟩ := ct
        rw [hcnt, hsum]
        show some (c + 1 + cntKey rest k,
            t + parseAmount (jsGet r "monto_val") + sumKey rest k)
          = some (c + (cntKey rest k + 1),
            t + (parseAmount (jsGet r "monto_val") + sumKey rest k))
        refine congrArg some ?_
        rw [Prod.mk.injEq]
        exact ⟨by omega, by ring⟩
      | none =>
        rw [hcnt, hsum, if_neg (show ¬(cntKey rest k + 1 = 0) by omega)]
        show some (1 + cntKey rest k,
            parseAmount (jsGet r "monto_val") + sumKey rest k)
          = some (cntKey rest k + 1,
            parseAmount (jsGet r "monto_val") + sumKey rest k)
        refine congrArg some ?_
        rw [Prod.mk.injEq]
        exact ⟨by omega, rfl⟩
    · rw [if_neg hM]
      have hcnt : cntKey (r :: rest) k = cntKey rest k := by
        unfold cntKey
        rw [List.filter_cons, if_neg (by simpa using hM)]
      have hsum : sumKey (r :: rest) k = sumKey rest k := by
        unfold sumKey
        rw [List.filter_cons, if_neg (by simpa using hM)]
      rw [hcnt, hsum]

instance : IsTotal (String × Nat × Int) (fun a b => a.1 ≤ b.1) :=
  ⟨fun a b => le_total a.1 b.1⟩

instance : IsTrans (String × Nat × Int) (fun a b => a.1 ≤ b.1) :=
  ⟨fun _ _ _ h1 h2 => le_trans h1 h2⟩

theorem agg_sorted (records : List Row) :
    List.Sorted (fun a b : String × Nat × Int => a.1 ≤ b.1) (aggregateByMonth records) :=
  List.sorted_insertionSort _ _

theorem agg_entry (records : List Row) (e : String × Nat × Int)
    (he : e ∈ aggregateByMonth records) :
    e.2.1 = cntKey records e.1 ∧ e.2.2 = sumKey records e.1 := by
  have hmem : e ∈ groupByMonth records :=
    (List.perm_insertionSort (fun a b : String × Nat × Int => a.1 ≤ b.1)
      (groupByMonth records)).mem_iff.mp he
  have hnd : (gkeys (groupByMonth records)).Nodup :=
    nodup_gkeys_groupFold records [] (by simp [gkeys])
  have hget : groupGet (groupByMonth records) e.1 = some e.2 := by
    unfold groupGet
    rw [find?_of_mem_nodup _ e hnd hmem]
    rfl
  unfold groupByMonth at hget
  rw [groupFold_get] at hget
  simp only [show groupGet ([] : List (String × Nat × Int)) e.1 = none from rfl] at hget
  by_cases hc : cntKey records e.1 = 0
  · rw [if_pos hc] at hget
    cases hget
  · rw [if_neg hc] at hget
    have hpair := Option.some.inj hget
    exact ⟨by rw [← hpair], by rw [← hpair]⟩

/-- C8: the monthly aggregator is sorted ascending by month-key string,
each bucket carries the count of the records whose fecha-derived month
key (split on dash or slash; three parts give year-month by the
4-digit-year positional rule; anything else the Desconocido bucket)
equals its key together with the sum of their parsed amounts, and the two
records dated 15/03/2024 and 20/03/2024 with amounts 1000 and 2000
produce the single bucket 2024-03 with count 2 and total 3000. -/
theorem claim_C8_monthly_aggregation (records : List Row) :
    List.Sorted (fun a b : String × Nat × Int => a.1 ≤ b.1) (aggregateByMonth records)
    ∧ (∀ e ∈ aggregateByMonth records,
        e.2.1 = (records.filter
            (fun r => monthKeyStr (jsGet r "fecha_val") == e.1)).length
        ∧ e.2.2 = ((records.filter
            (fun r => monthKeyStr (jsGet r "fecha_val") == e.1)).map
            (fun r => parseAmount (jsGet r "monto_val"))).sum)
    ∧ aggregateByMonth
        [[("fecha_val", "15/03/2024"), ("monto_val", "1000")],
         [("fecha_val", "20/03/2024"), ("monto_val", "2000")]]
      = [("2024-03", 2, 3000)] := by
  refine ⟨agg_sorted records, ?_, by decide⟩
  intro e he
  exact agg_entry records e he
